import Mathlib

/-!
Verification of the Skipper Mobile chat delivery subsystem.

The definitions below are a shallow embedding of the chat message store,
the HTTP chat endpoints and the WebSocket chat handlers of
src/server/index.js, together with the client-side reconnect backoff of
src/src/hooks/useWebSocket.ts and the client reconciliation logic of the
chat page.  Strings are modelled as lists of characters, millisecond
clocks as naturals, and the random id suffix produced by
Math.random().toString(36) as an oracle input.
-/

set_option maxHeartbeats 1000000

namespace Skipper

/-- Role of a chat message: the mobile user or the assistant responder. -/
inductive Role where
  | user
  | assistant
deriving DecidableEq

/-- Delivery status literals appearing on messages in the source. -/
inductive MsgStatus where
  | sending
  | sent
  | delivered
  | failed
deriving DecidableEq

/-- A chat message as built by the server handlers (id, role, content,
timestamp, status, optional replyTo). -/
structure Msg where
  id : List Char
  role : Role
  content : List Char
  ts : Nat
  status : MsgStatus
  replyTo : Option (List Char)
deriving DecidableEq

/-- A pending-queue envelope: `addToPending` spreads the message and adds
an `addedAt` stamp. -/
structure PendEnv where
  msg : Msg
  addedAt : Nat
deriving DecidableEq

/-- The durable server store: the chat history log and the pending
handoff queue. -/
structure ServerState where
  history : List Msg
  pending : List PendEnv
deriving DecidableEq

/-- The store at server start with empty files. -/
def initState : ServerState := ⟨[], []⟩

/-- Whitespace test used by trimming (JS String.prototype.trim). -/
def isWsChar (c : Char) : Bool := c.isWhitespace

/-- JS `s.trim()`: strip whitespace from both ends. -/
def trimChars (l : List Char) : List Char :=
  ((l.dropWhile isWsChar).reverse.dropWhile isWsChar).reverse

/-- Fuel-based decimal digit expansion (most significant digit first). -/
def natDecimalAux : Nat → Nat → List Char
  | 0, _ => []
  | fuel + 1, n =>
    if n = 0 then [] else natDecimalAux fuel (n / 10) ++ [Nat.digitChar (n % 10)]

/-- Decimal rendering of a natural, as JS template interpolation of
`Date.now()` produces. -/
def natDecimal (n : Nat) : List Char :=
  if n = 0 then ['0'] else natDecimalAux n n

/-- Leading characters of every server-assigned message id. -/
def msgIdHead : List Char := "msg_".data

/-- Id assignment from the source template string, with the millisecond
clock value and the random base-36 suffix as inputs. -/
def mkMsgId (t : Nat) (r : List Char) : List Char :=
  msgIdHead ++ natDecimal t ++ '_' :: r

/-- Maximum accepted message length (code constant). -/
def MAX_MESSAGE_LENGTH : Nat := 5000

/-- Validation error body for a missing or blank message. -/
def missingMsgErr : List Char :=
  "Message is required and must be a non-empty string".data

/-- Validation error body for an over-length message. -/
def tooLongErr : List Char := "Message too long".data

/-- Error event text the WebSocket handler returns for bad content. -/
def wsContentErr : List Char := "Message content is required".data

/-- Outcome of a send handler: the materialized message on acceptance, or
a validation error. -/
inductive SendOutcome where
  | ok (message : Msg)
  | badRequest (reason : List Char)
deriving DecidableEq

/-- A handler result: the response outcome and the store afterwards. -/
structure SendResult where
  outcome : SendOutcome
  state : ServerState
deriving DecidableEq

/-- The user message materialized by both send paths. -/
def mkUserMsg (content : List Char) (t : Nat) (r : List Char) : Msg :=
  ⟨mkMsgId t r, Role.user, trimChars content, t, MsgStatus.sent, none⟩

/-- JS truthiness of an optional string (null, undefined and a non-string
map to `none`; the empty string is falsy). -/
def strTruthy : Option (List Char) → Bool
  | none => false
  | some [] => false
  | some (_ :: _) => true

/-- POST /api/chat/send: type and emptiness validation, then the length
check, then append to history and enqueue to pending. -/
def postSend (s : ServerState) (message : Option (List Char)) (t : Nat)
    (r : List Char) : SendResult :=
  match message with
  | none => ⟨SendOutcome.badRequest missingMsgErr, s⟩
  | some m =>
    if m = [] ∨ trimChars m = [] then ⟨SendOutcome.badRequest missingMsgErr, s⟩
    else if m.length > MAX_MESSAGE_LENGTH then ⟨SendOutcome.badRequest tooLongErr, s⟩
    else
      let um := mkUserMsg m t r
      ⟨SendOutcome.ok um, ⟨s.history ++ [um], s.pending ++ [⟨um, t⟩]⟩⟩

/-- handleWsChatMessage: the WebSocket send path.  It validates only that
the content is a non-blank string; there is no length check in the
source.  On acceptance it stores the message and enqueues it. -/
def wsChatMessage (s : ServerState) (content : Option (List Char)) (t : Nat)
    (r : List Char) : SendResult :=
  match content with
  | none => ⟨SendOutcome.badRequest wsContentErr, s⟩
  | some c =>
    if c = [] ∨ trimChars c = [] then ⟨SendOutcome.badRequest wsContentErr, s⟩
    else
      let um := mkUserMsg c t r
      ⟨SendOutcome.ok um, ⟨s.history ++ [um], s.pending ++ [⟨um, t⟩]⟩⟩

/-- The assistant message materialized by POST /api/chat/respond
(`replyTo: replyTo || null`). -/
def mkAssistantMsg (content : List Char) (t : Nat) (r : List Char)
    (replyTo : Option (List Char)) : Msg :=
  ⟨mkMsgId t r, Role.assistant, trimChars content, t, MsgStatus.delivered,
    if strTruthy replyTo then replyTo else none⟩

/-- POST /api/chat/respond: validate, append to history, and when a
truthy replyTo is given filter it out of the pending queue. -/
def postRespond (s : ServerState) (message replyTo : Option (List Char))
    (t : Nat) (r : List Char) : SendResult :=
  match message with
  | none => ⟨SendOutcome.badRequest missingMsgErr, s⟩
  | some m =>
    if m = [] ∨ trimChars m = [] then ⟨SendOutcome.badRequest missingMsgErr, s⟩
    else
      let am := mkAssistantMsg m t r replyTo
      let pend := match replyTo with
        | some (c :: cs) => s.pending.filter (fun e => e.msg.id ≠ c :: cs)
        | _ => s.pending
      ⟨SendOutcome.ok am, ⟨s.history ++ [am], pend⟩⟩

/-- Result of DELETE /api/chat/pending/:id — the store afterwards, the
number of removed entries, and the reported success flag. -/
structure RemoveResult where
  state : ServerState
  removed : Nat
  success : Bool
deriving DecidableEq

/-- DELETE /api/chat/pending/:id — filter the queue by id and report how
many entries went away. -/
def removePendingById (s : ServerState) (i : List Char) : RemoveResult :=
  let pend := s.pending.filter (fun e => e.msg.id ≠ i)
  let removed := s.pending.length - pend.length
  ⟨⟨s.history, pend⟩, removed, decide (0 < removed)⟩

/-- DELETE /api/chat/pending — clear the queue, report the count. -/
def clearPendingAll (s : ServerState) : ServerState × Nat :=
  (⟨s.history, []⟩, s.pending.length)

/-- DELETE /api/chat/history — clear the history, report the count.  The
pending queue is not touched. -/
def clearHistoryAll (s : ServerState) : ServerState × Nat :=
  (⟨[], s.pending⟩, s.history.length)

/-- Limit parsing of GET /api/chat/history: `parseInt(q) || 50` capped by
`Math.min(., 200)`; `none` stands for an absent or non-numeric value. -/
def parseLimit (q : Option Int) : Int :=
  min (match q with
       | none => 50
       | some v => if v = 0 then 50 else v) 200

/-- JS `arr.slice(start)` with a possibly negative start index. -/
def jsSlice {α : Type} (l : List α) (start : Int) : List α :=
  if start < 0 then l.drop ((l.length : Int) + start).toNat
  else l.drop start.toNat

/-- The `after` windowing of GET /api/chat/history: a truthy cursor that
is found drops everything up to and including it; an unknown or falsy
cursor leaves the list whole. -/
def cursorAfter (msgs : List Msg) (after : Option (List Char)) : List Msg :=
  match after with
  | some (c :: cs) =>
    match msgs.findIdx? (fun m => m.id == c :: cs) with
    | some i => msgs.drop (i + 1)
    | none => msgs
  | _ => msgs

/-- The `before` windowing, applied to the already `after`-windowed list. -/
def cursorBefore (msgs : List Msg) (before : Option (List Char)) : List Msg :=
  match before with
  | some (c :: cs) =>
    match msgs.findIdx? (fun m => m.id == c :: cs) with
    | some i => msgs.take i
    | none => msgs
  | _ => msgs

/-- GET /api/chat/history: window by cursors, then return the last
`limit` entries via `messages.slice(-limit)`. -/
def historyGet (s : ServerState) (q : Option Int)
    (before after : Option (List Char)) : List Msg :=
  jsSlice (cursorBefore (cursorAfter s.history after) before) (-(parseLimit q))

/-- A store mutation reachable through the chat API surface. -/
inductive StoreOp where
  | send (content : Option (List Char)) (t : Nat) (r : List Char)
  | wsSend (content : Option (List Char)) (t : Nat) (r : List Char)
  | respond (message replyTo : Option (List Char)) (t : Nat) (r : List Char)
  | removePend (i : List Char)
  | clearPend
  | clearHist
deriving DecidableEq

/-- Effect of one chat API operation on the store. -/
def applyOp (s : ServerState) : StoreOp → ServerState
  | StoreOp.send c t r => (postSend s c t r).state
  | StoreOp.wsSend c t r => (wsChatMessage s c t r).state
  | StoreOp.respond m rt t r => (postRespond s m rt t r).state
  | StoreOp.removePend i => (removePendingById s i).state
  | StoreOp.clearPend => (clearPendingAll s).1
  | StoreOp.clearHist => (clearHistoryAll s).1

/-- Run a sequence of store operations from a starting state. -/
def runOps (s : ServerState) (ops : List StoreOp) : ServerState :=
  ops.foldl applyOp s

/-- Write-ahead invariant: every envelope in the pending queue has a
message with the same id in the history log. -/
def PendingBacked (s : ServerState) : Prop :=
  ∀ e ∈ s.pending, ∃ m ∈ s.history, m.id = e.msg.id

/-- Client chat state: the reconciled message list and the optimistic
pending-message reference (`pendingMessageRef`). -/
structure ClientState where
  msgs : List Msg
  pendingRef : Option (List Char)
deriving DecidableEq

/-- Client handler for an incoming `chat:message` or `chat:message:ack`
event: with a pending reference and a user-role payload the optimistic
entry is replaced in place; otherwise the event is appended unless its id
is already present. -/
def clientWsMessage (cs : ClientState) (m : Msg) : ClientState :=
  match cs.pendingRef, m.role with
  | some pid, Role.user =>
    ⟨cs.msgs.map (fun x =>
        if x.id = pid then (⟨m.id, m.role, m.content, m.ts, MsgStatus.sent, m.replyTo⟩ : Msg)
        else x), none⟩
  | pref, _ =>
    if cs.msgs.any (fun x => x.id == m.id) then ⟨cs.msgs, pref⟩
    else ⟨cs.msgs ++ [m], pref⟩

/-- One polling round of the chat page: with a nonempty local list,
request history with limit 20 after the last local id and append whatever
comes back. -/
def pollStep (localMsgs : List Msg) (server : ServerState) : List Msg :=
  match localMsgs.getLast? with
  | none => localMsgs
  | some last =>
    let resp := historyGet server (some 20) none (some last.id)
    if resp.length > 0 then localMsgs ++ resp else localMsgs

/-- Reconnect attempt cap of the client connection manager. -/
def maxReconnectAttempts : Nat := 10

/-- Base reconnect delay in milliseconds. -/
def baseReconnectDelay : ℚ := 1000

/-- Reconnect delay cap in milliseconds. -/
def reconnectCap : ℚ := 30000

/-- The delay computed by scheduleReconnect for a given attempt counter
and jitter draw: `min(base * 2^attempt + jitter, 30000)`. -/
def reconnectDelay (attempt : Nat) (jitter : ℚ) : ℚ :=
  min (baseReconnectDelay * 2 ^ attempt + jitter) reconnectCap

/-- scheduleReconnect: nothing is scheduled at or beyond the attempt cap;
otherwise the backoff delay is scheduled. -/
def scheduleReconnect (attempts : Nat) (jitter : ℚ) : Option ℚ :=
  if maxReconnectAttempts ≤ attempts then none
  else some (reconnectDelay attempts jitter)

/-- ws.onopen resets the reconnect attempt counter to zero. -/
def onOpenReset (_attempts : Nat) : Nat := 0

/-- A live WebSocket session as the hub sees it: an identity and whether
its readyState is OPEN. -/
structure Sess where
  sid : Nat
  ready : Bool
deriving DecidableEq

/-- A broadcast event envelope. -/
structure XEvent where
  etype : List Char
  payload : List Char
deriving DecidableEq

/-- Serialization of an event, instrumented with a call counter so that
the number of serializations a broadcast performs is observable. -/
def serializeEvent (ev : XEvent) (count : Nat) : List Char × Nat :=
  (ev.etype ++ ':' :: ev.payload, count + 1)

/-- Output of a broadcast: how many times the event was serialized, which
sessions received which bytes, and the session set afterwards (a session
whose send fails is deleted by its error handler). -/
structure BroadcastOut where
  serializations : Nat
  delivered : List (Nat × List Char)
  clients : List Sess
deriving DecidableEq

/-- broadcast(message): stringify once, then send the same bytes to every
open session.  A failing send removes only the failing session; the loop
is not aborted (the ws error is raised on the socket's own handler). -/
def broadcastToAll (cs : List Sess) (ev : XEvent) (sendFails : Nat → Bool) :
    BroadcastOut :=
  let dk := serializeEvent ev 0
  ⟨dk.2,
    ((cs.filter (fun s => s.ready)).filter (fun s => !sendFails s.sid)).map
      (fun s => (s.sid, dk.1)),
    cs.filter (fun s => !(s.ready && sendFails s.sid))⟩

/-- broadcastToOthers(sender, message): as broadcast, but the origin
session is skipped. -/
def broadcastToOthers (origin : Nat) (cs : List Sess) (ev : XEvent)
    (sendFails : Nat → Bool) : BroadcastOut :=
  let dk := serializeEvent ev 0
  ⟨dk.2,
    ((cs.filter (fun s => s.sid != origin && s.ready)).filter
        (fun s => !sendFails s.sid)).map (fun s => (s.sid, dk.1)),
    cs.filter (fun s => !(s.sid != origin && s.ready && sendFails s.sid))⟩

/-! Helper lemmas about trimming and the decimal id encoding. -/

theorem dropWhile_of_head_false {l : List Char} (h : ∀ c ∈ l, isWsChar c = false) :
    l.dropWhile isWsChar = l := by
  cases l with
  | nil => rfl
  | cons c cs => simp [List.dropWhile_cons, h c (by simp)]

theorem trimChars_of_no_ws {l : List Char} (h : ∀ c ∈ l, isWsChar c = false) :
    trimChars l = l := by
  unfold trimChars
  rw [dropWhile_of_head_false h,
    dropWhile_of_head_false (fun c hc => h c (List.mem_reverse.mp hc)),
    List.reverse_reverse]

theorem trimChars_replicate_a (n : Nat) :
    trimChars (List.replicate n 'a') = List.replicate n 'a' :=
  trimChars_of_no_ws (fun c hc => by rw [List.eq_of_mem_replicate hc]; decide)

theorem replicate_a_not_blank (n : Nat) (h : 0 < n) :
    ¬(List.replicate n 'a' = [] ∨ trimChars (List.replicate n 'a') = []) := by
  intro hcase
  have hnil : List.replicate n 'a' = [] := by
    rcases hcase with h1 | h1
    · exact h1
    · rwa [trimChars_replicate_a] at h1
  have := congrArg List.length hnil
  simp at this
  omega

/-- Decoder that reads a decimal character list back to a natural. -/
def decodeNat (l : List Char) : Nat :=
  l.foldl (fun acc c => acc * 10 + (c.toNat - 48)) 0

theorem decode_foldl_append (l : List Char) (c : Char) (a : Nat) :
    List.foldl (fun acc ch => acc * 10 + (ch.toNat - 48)) a (l ++ [c])
      = (List.foldl (fun acc ch => acc * 10 + (ch.toNat - 48)) a l) * 10
          + (c.toNat - 48) := by
  simp [List.foldl_append]

theorem digitVal_digitChar : ∀ d, d < 10 → (Nat.digitChar d).toNat - 48 = d := by
  decide

theorem decode_natDecimalAux : ∀ fuel n, n ≤ fuel →
    decodeNat (natDecimalAux fuel n) = n := by
  intro fuel
  induction fuel with
  | zero =>
    intro n hn
    have h0 : n = 0 := Nat.le_zero.mp hn
    subst h0; rfl
  | succ k ih =>
    intro n hn
    rcases Nat.eq_zero_or_pos n with h0 | h0
    · subst h0; rfl
    · have hne : ¬ n = 0 := Nat.pos_iff_ne_zero.mp h0
      have hd : n / 10 ≤ k := by
        have h1 : n / 10 < n := Nat.div_lt_self h0 (by norm_num)
        omega
      have hrec := ih (n / 10) hd
      have hm : n % 10 < 10 := Nat.mod_lt _ (by norm_num)
      show decodeNat (natDecimalAux (k + 1) n) = n
      simp only [natDecimalAux, if_neg hne]
      unfold decodeNat at hrec ⊢
      rw [decode_foldl_append, hrec, digitVal_digitChar _ hm]
      omega

theorem decode_natDecimal (n : Nat) : decodeNat (natDecimal n) = n := by
  by_cases h : n = 0
  · subst h; rfl
  · unfold natDecimal
    rw [if_neg h]
    exact decode_natDecimalAux n n le_rfl

theorem natDecimal_injective {a b : Nat} (h : natDecimal a = natDecimal b) :
    a = b := by
  have h2 := congrArg decodeNat h
  rwa [decode_natDecimal, decode_natDecimal] at h2

theorem mem_natDecimalAux : ∀ fuel n c, c ∈ natDecimalAux fuel n →
    ∃ d, d < 10 ∧ c = Nat.digitChar d := by
  intro fuel
  induction fuel with
  | zero => intro n c hc; simp [natDecimalAux] at hc
  | succ k ih =>
    intro n c hc
    by_cases h0 : n = 0
    · rw [natDecimalAux, if_pos h0] at hc
      simp at hc
    · rw [natDecimalAux, if_neg h0] at hc
      rcases List.mem_append.mp hc with hc2 | hc2
      · exact ih _ _ hc2
      · exact ⟨n % 10, Nat.mod_lt _ (by norm_num), List.mem_singleton.mp hc2⟩

theorem digitChar_lt_ne_underscore : ∀ d, d < 10 → Nat.digitChar d ≠ '_' := by
  decide

theorem underscore_notMem_natDecimal (n : Nat) : '_' ∉ natDecimal n := by
  unfold natDecimal
  by_cases h : n = 0
  · rw [if_pos h]; decide
  · rw [if_neg h]
    intro hmem
    obtain ⟨d, hd, he⟩ := mem_natDecimalAux n n _ hmem
    exact digitChar_lt_ne_underscore d hd he.symm

theorem append_sep_inj :
    ∀ (a b r1 r2 : List Char), '_' ∉ a → '_' ∉ b →
      a ++ '_' :: r1 = b ++ '_' :: r2 → a = b ∧ r1 = r2 := by
  intro a
  induction a with
  | nil =>
    intro b r1 r2 _ hb h
    cases b with
    | nil => simpa using h
    | cons d ds =>
      exfalso
      simp only [List.nil_append, List.cons_append, List.cons.injEq] at h
      apply hb
      rw [h.1]
      exact List.mem_cons_self d ds
  | cons c cs ih =>
    intro b r1 r2 ha hb h
    cases b with
    | nil =>
      exfalso
      simp only [List.cons_append, List.nil_append, List.cons.injEq] at h
      apply ha
      rw [← h.1]
      exact List.mem_cons_self c cs
    | cons d ds =>
      simp only [List.cons_append, List.cons.injEq] at h
      obtain ⟨hcd, htail⟩ := h
      have ha2 : '_' ∉ cs := fun hx => ha (List.mem_cons_of_mem _ hx)
      have hb2 : '_' ∉ ds := fun hx => hb (List.mem_cons_of_mem _ hx)
      obtain ⟨h1, h2⟩ := ih ds r1 r2 ha2 hb2 htail
      exact ⟨by rw [hcd, h1], h2⟩

theorem mkMsgId_inj {t1 t2 : Nat} {r1 r2 : List Char}
    (h : mkMsgId t1 r1 = mkMsgId t2 r2) : t1 = t2 ∧ r1 = r2 := by
  unfold mkMsgId at h
  have h3 : msgIdHead ++ (natDecimal t1 ++ '_' :: r1)
      = msgIdHead ++ (natDecimal t2 ++ '_' :: r2) := by
    simpa [List.append_assoc] using h
  have h2 : natDecimal t1 ++ '_' :: r1 = natDecimal t2 ++ '_' :: r2 :=
    List.append_cancel_left h3
  obtain ⟨hd, ht⟩ := append_sep_inj _ _ _ _ (underscore_notMem_natDecimal t1)
      (underscore_notMem_natDecimal t2) h2
  exact ⟨natDecimal_injective hd, ht⟩

/-! Concrete inputs used by counterexamples and witnesses. -/

/-- A message body of exactly the maximum accepted length. -/
def okContent : List Char := List.replicate 5000 'a'

/-- A message body one character over the maximum. -/
def longContent : List Char := List.replicate 5001 'a'

/-- A short non-blank message body. -/
def hiChars : List Char := "hi".data

/-- A blank (whitespace-only) message body. -/
def spaceChars : List Char := " ".data

/-- A sample base-36 random id suffix. -/
def demoRand : List Char := "abc123def".data

/-- An id that is absent from the demo stores. -/
def xChars : List Char := "x".data

/-- A message sitting in the demo pending queue. -/
def demoPendMsg : Msg := ⟨mkMsgId 4 demoRand, Role.user, hiChars, 4, MsgStatus.sent, none⟩

/-- A demo store with one pending envelope. -/
def demoStore : ServerState := ⟨[demoPendMsg], [⟨demoPendMsg, 4⟩]⟩

/-! Claim C5. -/

/-- C5: on the stateless send endpoint a message of exactly 5000
characters is accepted — the outcome carries success with the
materialized message and the store gains it in history and pending —
while a 5001-character message is rejected with a validation error and
the store is unchanged. -/
theorem lengthBoundarySpec :
    (postSend initState (some okContent) 3 demoRand).outcome
        = SendOutcome.ok (mkUserMsg okContent 3 demoRand)
    ∧ (postSend initState (some okContent) 3 demoRand).state.history
        = [mkUserMsg okContent 3 demoRand]
    ∧ (postSend initState (some okContent) 3 demoRand).state.pending
        = [⟨mkUserMsg okContent 3 demoRand, 3⟩]
    ∧ postSend initState (some longContent) 3 demoRand
        = ⟨SendOutcome.badRequest tooLongErr, initState⟩ := by
  have hok : ¬(okContent = [] ∨ trimChars okContent = []) :=
    replicate_a_not_blank 5000 (by norm_num)
  have hlong : ¬(longContent = [] ∨ trimChars longContent = []) :=
    replicate_a_not_blank 5001 (by norm_num)
  have hlenOk : ¬(okContent.length > MAX_MESSAGE_LENGTH) := by
    unfold okContent MAX_MESSAGE_LENGTH
    rw [List.length_replicate]
    omega
  have hlenLong : longContent.length > MAX_MESSAGE_LENGTH := by
    unfold longContent MAX_MESSAGE_LENGTH
    rw [List.length_replicate]
    omega
  refine ⟨?_, ?_, ?_, ?_⟩
  · simp [postSend, hok, hlenOk, initState]
  · simp [postSend, hok, hlenOk, initState]
  · simp [postSend, hok, hlenOk, initState]
  · simp [postSend, hlong, hlenLong, initState]

/-! Claim C6. -/

/-- C6: removing a pending entry by id is idempotent — a second
application leaves the store identical and removes zero entries — and
removing an id that is not in the queue leaves the store unchanged,
reporting zero affected entries instead of failing. -/
theorem removePendingIdempotent :
    ∀ (s : ServerState) (i : List Char),
      (removePendingById (removePendingById s i).state i).state
          = (removePendingById s i).state
      ∧ (removePendingById (removePendingById s i).state i).removed = 0
      ∧ (i ∉ s.pending.map (fun e => e.msg.id) →
          removePendingById s i = ⟨s, 0, false⟩) := by
  intro s i
  have hfilter : ∀ (l : List PendEnv),
      (l.filter (fun e => e.msg.id ≠ i)).filter (fun e => e.msg.id ≠ i)
        = l.filter (fun e => e.msg.id ≠ i) := fun l =>
    List.filter_eq_self.mpr (fun e he => (List.mem_filter.mp he).2)
  have hEq : ∀ (s2 : ServerState), removePendingById s2 i
      = ⟨⟨s2.history, s2.pending.filter (fun e => e.msg.id ≠ i)⟩,
         s2.pending.length - (s2.pending.filter (fun e => e.msg.id ≠ i)).length,
         decide (0 < s2.pending.length
            - (s2.pending.filter (fun e => e.msg.id ≠ i)).length)⟩ :=
    fun _ => rfl
  refine ⟨?_, ?_, ?_⟩
  · simp only [hEq]
    rw [hfilter s.pending]
  · simp only [hEq]
    rw [hfilter s.pending]
    omega
  · intro hnot
    have hall : s.pending.filter (fun e => e.msg.id ≠ i) = s.pending := by
      apply List.filter_eq_self.mpr
      intro e he
      have hne : e.msg.id ≠ i := fun hEq2 => hnot (List.mem_map.mpr ⟨e, he, hEq2⟩)
      simpa using hne
    simp only [hEq]
    rw [hall]
    simp

/-- C6 witness: the theorem applied to a demo store and an id absent
from its queue. -/
theorem removePendingIdempotentWitness :
    xChars ∉ demoStore.pending.map (fun e => e.msg.id)
    ∧ removePendingById demoStore xChars = ⟨demoStore, 0, false⟩ :=
  ⟨by decide, (removePendingIdempotent demoStore xChars).2.2 (by decide)⟩

/-! Claim C10. -/

/-- C10: clearing the chat history empties the history but leaves the
pending queue untouched, and a responder send without a replyTo leaves
the pending queue untouched whatever the message content is. -/
theorem clearHistoryRespondFrameSpec :
    ∀ (s : ServerState) (message : Option (List Char)) (t : Nat) (r : List Char),
      (clearHistoryAll s).1.pending = s.pending
      ∧ (clearHistoryAll s).1.history = []
      ∧ (postRespond s message none t r).state.pending = s.pending := by
  intro s message t r
  refine ⟨rfl, rfl, ?_⟩
  cases message with
  | none => rfl
  | some m =>
    by_cases h : m = [] ∨ trimChars m = []
    · simp [postRespond, h]
    · simp [postRespond, h]

/-! Claim C3. -/

/-- C3 counterexample: the claim says over-length content is rejected on
both transports, but the WebSocket chat handler has no length check — it
accepts a 5001-character message and mutates the store. -/
theorem wsOverlengthAcceptedCounterexample :
    (wsChatMessage initState (some longContent) 7 demoRand).outcome
        = SendOutcome.ok (mkUserMsg longContent 7 demoRand)
    ∧ (wsChatMessage initState (some longContent) 7 demoRand).state.history
        = [mkUserMsg longContent 7 demoRand]
    ∧ (wsChatMessage initState (some longContent) 7 demoRand).state.pending
        = [⟨mkUserMsg longContent 7 demoRand, 7⟩]
    ∧ longContent.length = 5001
    ∧ MAX_MESSAGE_LENGTH = 5000 := by
  have hlong : ¬(longContent = [] ∨ trimChars longContent = []) :=
    replicate_a_not_blank 5001 (by norm_num)
  have hlen : longContent.length = 5001 := by
    unfold longContent
    rw [List.length_replicate]
  refine ⟨?_, ?_, ?_, hlen, rfl⟩ <;>
    simp [wsChatMessage, hlong, initState]

/-- C3 (amended): both transports reject missing, non-string or blank
content with the store unchanged; only the stateless POST path
additionally rejects content over the 5000-character maximum, while the
WebSocket handler accepts any non-blank string content regardless of its
length. -/
theorem sendValidationAmended :
    (∀ (s : ServerState) (t : Nat) (r : List Char),
        postSend s none t r = ⟨SendOutcome.badRequest missingMsgErr, s⟩
        ∧ wsChatMessage s none t r = ⟨SendOutcome.badRequest wsContentErr, s⟩)
    ∧ (∀ (s : ServerState) (c : List Char) (t : Nat) (r : List Char),
        trimChars c = [] →
          postSend s (some c) t r = ⟨SendOutcome.badRequest missingMsgErr, s⟩
          ∧ wsChatMessage s (some c) t r = ⟨SendOutcome.badRequest wsContentErr, s⟩)
    ∧ (∀ (s : ServerState) (c : List Char) (t : Nat) (r : List Char),
        trimChars c ≠ [] → MAX_MESSAGE_LENGTH < c.length →
          postSend s (some c) t r = ⟨SendOutcome.badRequest tooLongErr, s⟩)
    ∧ (∀ (s : ServerState) (c : List Char) (t : Nat) (r : List Char),
        trimChars c ≠ [] →
          (wsChatMessage s (some c) t r).outcome
            = SendOutcome.ok (mkUserMsg c t r)) := by
  refine ⟨?_, ?_, ?_, ?_⟩
  · intro s t r
    exact ⟨rfl, rfl⟩
  · intro s c t r h
    constructor
    · simp [postSend, h]
    · simp [wsChatMessage, h]
  · intro s c t r h hlen
    have hcond : ¬(c = [] ∨ trimChars c = []) := by
      rintro (h1 | h1)
      · subst h1; exact h rfl
      · exact h h1
    simp [postSend, hcond, hlen, MAX_MESSAGE_LENGTH] at hlen ⊢
    simp [hlen]
  · intro s c t r h
    have hcond : ¬(c = [] ∨ trimChars c = []) := by
      rintro (h1 | h1)
      · subst h1; exact h rfl
      · exact h h1
    simp [wsChatMessage, hcond]

/-- C3 witness: blank content rejected on the WebSocket path with the
store unchanged, and an over-length body rejected on the POST path. -/
theorem sendValidationAmendedWitness :
    (trimChars spaceChars = []
      ∧ wsChatMessage initState (some spaceChars) 1 demoRand
          = ⟨SendOutcome.badRequest wsContentErr, initState⟩)
    ∧ (trimChars longContent ≠ []
      ∧ MAX_MESSAGE_LENGTH < longContent.length
      ∧ postSend initState (some longContent) 1 demoRand
          = ⟨SendOutcome.badRequest tooLongErr, initState⟩) := by
  have htr : trimChars longContent ≠ [] := by
    intro h
    apply replicate_a_not_blank 5001 (by norm_num)
    apply Or.inr
    unfold longContent at h
    exact h
  have hlen : MAX_MESSAGE_LENGTH < longContent.length := by
    unfold longContent MAX_MESSAGE_LENGTH
    rw [List.length_replicate]
    omega
  exact ⟨⟨by decide,
    (sendValidationAmended.2.1 initState spaceChars 1 demoRand (by decide)).2⟩,
   ⟨htr, hlen,
    sendValidationAmended.2.2.1 initState longContent 1 demoRand htr hlen⟩⟩

/-! Claim C1. -/

theorem pendingBacked_append {s : ServerState} (hs : PendingBacked s)
    (um : Msg) (t : Nat) :
    PendingBacked ⟨s.history ++ [um], s.pending ++ [⟨um, t⟩]⟩ := by
  intro e he
  rcases List.mem_append.mp he with he2 | he2
  · obtain ⟨m, hm, hid⟩ := hs e he2
    exact ⟨m, List.mem_append.mpr (Or.inl hm), hid⟩
  · have heq : e = ⟨um, t⟩ := List.mem_singleton.mp he2
    subst heq
    exact ⟨um, List.mem_append.mpr (Or.inr (List.mem_singleton.mpr rfl)), rfl⟩

theorem pendingBacked_mono {s : ServerState} (hs : PendingBacked s)
    (h2 : List Msg) (p2 : List PendEnv)
    (hsub : ∀ e ∈ p2, e ∈ s.pending)
    (hh : ∀ m ∈ s.history, m ∈ h2) : PendingBacked ⟨h2, p2⟩ := by
  intro e he
  obtain ⟨m, hm, hid⟩ := hs e (hsub e he)
  exact ⟨m, hh m hm, hid⟩

theorem pendingBacked_applyOp {s : ServerState} (hs : PendingBacked s) :
    ∀ op : StoreOp, op ≠ StoreOp.clearHist → PendingBacked (applyOp s op) := by
  intro op hop
  cases op with
  | send c t r =>
    show PendingBacked (postSend s c t r).state
    cases c with
    | none => exact hs
    | some m =>
      by_cases h : m = [] ∨ trimChars m = []
      · simpa [postSend, h] using hs
      · by_cases h2 : m.length > MAX_MESSAGE_LENGTH
        · simpa [postSend, h, h2] using hs
        · have hb := pendingBacked_append hs (mkUserMsg m t r) t
          simpa [postSend, h, h2] using hb
  | wsSend c t r =>
    show PendingBacked (wsChatMessage s c t r).state
    cases c with
    | none => exact hs
    | some m =>
      by_cases h : m = [] ∨ trimChars m = []
      · simpa [wsChatMessage, h] using hs
      · have hb := pendingBacked_append hs (mkUserMsg m t r) t
        simpa [wsChatMessage, h] using hb
  | respond m rt t r =>
    show PendingBacked (postRespond s m rt t r).state
    cases m with
    | none => exact hs
    | some mm =>
      by_cases h : mm = [] ∨ trimChars mm = []
      · simpa [postRespond, h] using hs
      · cases rt with
        | none =>
          have hb : PendingBacked
              ⟨s.history ++ [mkAssistantMsg mm t r none], s.pending⟩ := by
            apply pendingBacked_mono hs
            · intro e he
              exact he
            · intro m2 hm2
              exact List.mem_append.mpr (Or.inl hm2)
          simpa [postRespond, h] using hb
        | some l =>
          cases l with
          | nil =>
            have hb : PendingBacked
                ⟨s.history ++ [mkAssistantMsg mm t r (some [])], s.pending⟩ := by
              apply pendingBacked_mono hs
              · intro e he
                exact he
              · intro m2 hm2
                exact List.mem_append.mpr (Or.inl hm2)
            simpa [postRespond, h] using hb
          | cons c cs =>
            have hb : PendingBacked
                ⟨s.history ++ [mkAssistantMsg mm t r (some (c :: cs))],
                  s.pending.filter (fun e => e.msg.id ≠ c :: cs)⟩ := by
              apply pendingBacked_mono hs
              · intro e he
                exact (List.mem_filter.mp he).1
              · intro m2 hm2
                exact List.mem_append.mpr (Or.inl hm2)
            simpa [postRespond, h] using hb
  | removePend i =>
    show PendingBacked (removePendingById s i).state
    apply pendingBacked_mono hs
    · intro e he
      exact (List.mem_filter.mp he).1
    · intro m hm
      exact hm
  | clearPend =>
    intro e he
    simp [applyOp, clearPendingAll] at he
  | clearHist => exact absurd rfl hop

theorem pendingBacked_runOps :
    ∀ (ops : List StoreOp) (s : ServerState), PendingBacked s →
      (∀ op ∈ ops, op ≠ StoreOp.clearHist) → PendingBacked (runOps s ops) := by
  intro ops
  induction ops with
  | nil =>
    intro s hs _
    exact hs
  | cons op rest ih =>
    intro s hs hall
    show PendingBacked (runOps (applyOp s op) rest)
    exact ih (applyOp s op)
      (pendingBacked_applyOp hs op (hall op (List.mem_cons_self op rest)))
      (fun o ho => hall o (List.mem_cons_of_mem op ho))

instance decidablePendingBacked (s : ServerState) : Decidable (PendingBacked s) := by
  unfold PendingBacked
  infer_instance

/-- C1 counterexample: the invariant as stated quantifies over every
store operation, but DELETE /api/chat/history clears the history and
leaves the pending queue intact, so an accepted send followed by a
history clear yields a pending envelope whose message is absent from
the history log. -/
theorem pendingBackedClearCounterexample :
    ¬ PendingBacked (runOps initState
        [StoreOp.send (some hiChars) 5 demoRand, StoreOp.clearHist]) := by
  decide

/-- C1 (amended): both send paths append the accepted message to history
and enqueue its envelope in the same step, and along every sequence of
chat store operations that does not clear the history, every reachable
state keeps each pending envelope backed by a history message with the
same id.  Clearing the history breaks the correspondence because the
pending queue is untouched. -/
theorem pendingBackedInvariant (ops : List StoreOp)
    (h : ∀ op ∈ ops, op ≠ StoreOp.clearHist) :
    PendingBacked (runOps initState ops) :=
  pendingBacked_runOps ops initState (by intro e he; simp [initState] at he) h

/-- C1 witness: a send and a respond then satisfy the invariant. -/
theorem pendingBackedInvariantWitness :
    (∀ op ∈ [StoreOp.send (some hiChars) 5 demoRand,
        StoreOp.respond (some hiChars) none 6 demoRand],
        op ≠ StoreOp.clearHist)
    ∧ PendingBacked (runOps initState
        [StoreOp.send (some hiChars) 5 demoRand,
          StoreOp.respond (some hiChars) none 6 demoRand]) :=
  ⟨by decide, pendingBackedInvariant _ (by decide)⟩

/-! Claim C8. -/

/-- C8 counterexample: id assignment is `msg_` plus the millisecond
clock plus a random suffix, with no uniqueness enforcement; two accepted
sends in the same millisecond that draw the same random suffix receive
the same id, so ids of distinct accepted sends are not always distinct. -/
theorem sameTickSameRandCounterexample :
    ¬ ((runOps initState [StoreOp.send (some hiChars) 5 demoRand,
          StoreOp.send (some hiChars) 5 demoRand]).history.map Msg.id).Nodup
    ∧ (runOps initState [StoreOp.send (some hiChars) 5 demoRand,
          StoreOp.send (some hiChars) 5 demoRand]).history.length = 2
    ∧ (runOps initState [StoreOp.send (some hiChars) 5 demoRand,
          StoreOp.send (some hiChars) 5 demoRand]).history.map Msg.id
        = [mkMsgId 5 demoRand, mkMsgId 5 demoRand] := by
  refine ⟨by decide, by decide, by decide⟩

/-- C8 (amended): each accepted send (either transport) appends its
message at the end of the history, so positions agree with acceptance
order, and two accepted sends receive distinct ids whenever their
(millisecond timestamp, random suffix) oracle pairs differ; equality of
both oracle values is the only way two ids can collide. -/
theorem acceptedSendIdsAmended :
    (∀ (t1 t2 : Nat) (r1 r2 : List Char), (t1, r1) ≠ (t2, r2) →
        mkMsgId t1 r1 ≠ mkMsgId t2 r2)
    ∧ (∀ (s : ServerState) (c : Option (List Char)) (t : Nat) (r : List Char)
          (m : Msg),
        (postSend s c t r).outcome = SendOutcome.ok m →
          (postSend s c t r).state.history = s.history ++ [m])
    ∧ (∀ (s : ServerState) (c : Option (List Char)) (t : Nat) (r : List Char)
          (m : Msg),
        (wsChatMessage s c t r).outcome = SendOutcome.ok m →
          (wsChatMessage s c t r).state.history = s.history ++ [m]) := by
  refine ⟨?_, ?_, ?_⟩
  · intro t1 t2 r1 r2 hne he
    obtain ⟨ht, hr⟩ := mkMsgId_inj he
    exact hne (by rw [ht, hr])
  · intro s c t r m hok
    cases c with
    | none => simp [postSend] at hok
    | some mm =>
      by_cases h : mm = [] ∨ trimChars mm = []
      · simp [postSend, h] at hok
      · by_cases h2 : mm.length > MAX_MESSAGE_LENGTH
        · simp [postSend, h, h2] at hok
        · have hmm : mkUserMsg mm t r = m := by
            simpa [postSend, h, h2] using hok
          simp [postSend, h, h2, hmm]
  · intro s c t r m hok
    cases c with
    | none => simp [wsChatMessage] at hok
    | some mm =>
      by_cases h : mm = [] ∨ trimChars mm = []
      · simp [wsChatMessage, h] at hok
      · have hmm : mkUserMsg mm t r = m := by
          simpa [wsChatMessage, h] using hok
        simp [wsChatMessage, h, hmm]

/-- C8 witness: distinct clock values give distinct ids, and an accepted
send lands at the end of the history. -/
theorem acceptedSendIdsAmendedWitness :
    ((5, demoRand) ≠ ((6 : Nat), demoRand))
    ∧ mkMsgId 5 demoRand ≠ mkMsgId 6 demoRand
    ∧ (postSend initState (some hiChars) 5 demoRand).outcome
        = SendOutcome.ok (mkUserMsg hiChars 5 demoRand)
    ∧ (postSend initState (some hiChars) 5 demoRand).state.history
        = initState.history ++ [mkUserMsg hiChars 5 demoRand] :=
  ⟨by decide,
   acceptedSendIdsAmended.1 5 6 demoRand demoRand (by decide),
   by decide,
   acceptedSendIdsAmended.2.1 initState (some hiChars) 5 demoRand
     (mkUserMsg hiChars 5 demoRand) (by decide)⟩

/-! Claim C9. -/

theorem findIdx_id_none {msgs : List Msg} {i : List Char}
    (h : i ∉ msgs.map Msg.id) :
    msgs.findIdx? (fun m => m.id == i) = none := by
  apply List.findIdx?_eq_none_iff.mpr
  intro m hm
  have hne : m.id ≠ i := fun he => h (List.mem_map.mpr ⟨m, hm, he⟩)
  simpa using hne

/-- A second demo message with a later clock value. -/
def demoMsg2 : Msg := ⟨mkMsgId 9 demoRand, Role.assistant, hiChars, 9, MsgStatus.delivered, none⟩

/-- A demo store with two history messages and an empty queue. -/
def demoHistStore : ServerState := ⟨[demoPendMsg, demoMsg2], []⟩

/-- An id unknown to the demo stores. -/
def zChars : List Char := "zz".data

/-- C9: when the `after` (or `before`) cursor id of GET history matches
no stored message, the handler behaves as if the cursor were absent: no
windowing is applied and the endpoint returns the last `limit` messages
of the full history, which is nonempty whenever the history is. -/
theorem historyUnknownCursorSpec :
    ∀ (s : ServerState) (q : Option Int) (a b : List Char),
      (a ∉ s.history.map Msg.id →
          historyGet s q none (some a) = historyGet s q none none)
      ∧ (b ∉ s.history.map Msg.id →
          historyGet s q (some b) none = historyGet s q none none)
      ∧ (0 < parseLimit q →
          historyGet s q none none
            = s.history.drop (s.history.length - (parseLimit q).toNat))
      ∧ (0 < parseLimit q → s.history ≠ [] →
          historyGet s q none none ≠ []) := by
  intro s q a b
  have hbase : 0 < parseLimit q →
      historyGet s q none none
        = s.history.drop (s.history.length - (parseLimit q).toNat) := by
    intro hq
    show jsSlice (cursorBefore (cursorAfter s.history none) none) (-(parseLimit q))
      = s.history.drop (s.history.length - (parseLimit q).toNat)
    have h1 : cursorAfter s.history none = s.history := rfl
    have h2 : cursorBefore s.history none = s.history := rfl
    rw [h1, h2]
    unfold jsSlice
    rw [if_pos (by omega)]
    congr 1
    omega
  refine ⟨?_, ?_, hbase, ?_⟩
  · intro h
    have hca : cursorAfter s.history (some a) = s.history := by
      cases a with
      | nil => rfl
      | cons c cs => simp [cursorAfter, findIdx_id_none h]
    show jsSlice (cursorBefore (cursorAfter s.history (some a)) none) (-(parseLimit q))
      = historyGet s q none none
    rw [hca]
    rfl
  · intro h
    have hcb : cursorBefore s.history (some b) = s.history := by
      cases b with
      | nil => rfl
      | cons c cs => simp [cursorBefore, findIdx_id_none h]
    show jsSlice (cursorBefore (cursorAfter s.history none) (some b)) (-(parseLimit q))
      = historyGet s q none none
    have h1 : cursorAfter s.history none = s.history := rfl
    rw [h1, hcb]
    rfl
  · intro hq hne
    rw [hbase hq]
    have hlen : 0 < s.history.length := List.length_pos.mpr hne
    have hlim : 1 ≤ (parseLimit q).toNat := by omega
    intro hnil
    have := congrArg List.length hnil
    rw [List.length_drop] at this
    simp at this
    omega

/-- C9 witness: an unknown after-cursor on a two-message store returns
the same full tail as the cursorless query, and the result is nonempty. -/
theorem historyUnknownCursorSpecWitness :
    zChars ∉ demoHistStore.history.map Msg.id
    ∧ (0 : Int) < parseLimit none
    ∧ demoHistStore.history ≠ []
    ∧ historyGet demoHistStore none none (some zChars)
        = historyGet demoHistStore none none none
    ∧ historyGet demoHistStore none none none
        = demoHistStore.history.drop
            (demoHistStore.history.length - (parseLimit none).toNat)
    ∧ historyGet demoHistStore none none none ≠ [] :=
  ⟨by decide, by decide, by decide,
   (historyUnknownCursorSpec demoHistStore none zChars zChars).1 (by decide),
   (historyUnknownCursorSpec demoHistStore none zChars zChars).2.2.1 (by decide),
   (historyUnknownCursorSpec demoHistStore none zChars zChars).2.2.2 (by decide)
     (by decide)⟩

/-! Claim C2. -/

/-- A message confirmed on the client via the stateless send. -/
def demoMA : Msg := ⟨mkMsgId 1 demoRand, Role.user, hiChars, 1, MsgStatus.sent, none⟩

/-- The optimistic provisional entry of an in-flight second send. -/
def demoTemp : Msg := ⟨"temp_2".data, Role.user, hiChars, 2, MsgStatus.sending, none⟩

/-- Client list holding the confirmed message and the provisional one. -/
def demoLocal : List Msg := [demoMA, demoTemp]

/-- Server store holding only the confirmed message. -/
def demoServerA : ServerState := ⟨[demoMA], [⟨demoMA, 1⟩]⟩

/-- C2 counterexample: the polling round appends the returned entries
without any presence check.  With the provisional temp id as the local
tail, the server does not find the cursor, returns the full tail, and
the poll appends a message whose id is already visible — two entries
with the same id end up in the reconciled list. -/
theorem pollAppendsDuplicateCounterexample :
    pollStep demoLocal demoServerA = [demoMA, demoTemp, demoMA]
    ∧ demoMA ∈ demoLocal
    ∧ (demoLocal.map Msg.id).Nodup
    ∧ ¬ ((pollStep demoLocal demoServerA).map Msg.id).Nodup := by
  refine ⟨by decide, by decide, by decide, by decide⟩

/-- C2 (amended): the poll requests history strictly after the last
local id but appends the response without a dedup check.  When the last
local id is nonempty and found on the server, the response window lies
strictly after it in server order; if that window is disjoint from the
local ids (and server ids are duplicate-free), a polling round preserves
duplicate-freedom of the reconciled list.  The WebSocket merge path, by
contrast, does discard an event whose id is already present. -/
theorem pollMergeDedupAmended :
    (∀ (localMsgs : List Msg) (server : ServerState) (last : Msg) (i : Nat),
        localMsgs.getLast? = some last → last.id ≠ [] →
        server.history.findIdx? (fun m => m.id == last.id) = some i →
        (server.history.map Msg.id).Nodup →
        (localMsgs.map Msg.id).Nodup →
        (∀ m ∈ server.history.drop (i + 1), m.id ∉ localMsgs.map Msg.id) →
        ((pollStep localMsgs server).map Msg.id).Nodup)
    ∧ (∀ (cs : ClientState) (m : Msg), cs.pendingRef = none →
        (∃ x ∈ cs.msgs, x.id = m.id) → clientWsMessage cs m = cs) := by
  constructor
  · intro localMsgs server last i hlast hne hfind hserver hlocal hdisj
    have hid : ∃ c cs0, last.id = c :: cs0 := by
      cases hcase : last.id with
      | nil => exact absurd hcase hne
      | cons c cs0 => exact ⟨c, cs0, rfl⟩
    obtain ⟨c, cs0, hcid⟩ := hid
    rw [hcid] at hfind
    have hresp : historyGet server (some 20) none (some last.id)
        = jsSlice (server.history.drop (i + 1)) (-(parseLimit (some 20))) := by
      show jsSlice (cursorBefore (cursorAfter server.history (some last.id)) none)
          (-(parseLimit (some 20)))
        = jsSlice (server.history.drop (i + 1)) (-(parseLimit (some 20)))
      rw [hcid]
      simp [cursorAfter, cursorBefore, hfind]
    have hsub1 : jsSlice (server.history.drop (i + 1)) (-(parseLimit (some 20)))
        ⊆ server.history.drop (i + 1) := by
      unfold jsSlice
      split
      · exact List.drop_subset _ _
      · exact List.drop_subset _ _
    have hsl : List.Sublist
        (jsSlice (server.history.drop (i + 1)) (-(parseLimit (some 20))))
        server.history := by
      unfold jsSlice
      split
      · exact (List.drop_sublist _ _).trans (List.drop_sublist _ _)
      · exact (List.drop_sublist _ _).trans (List.drop_sublist _ _)
    have hrespNodup :
        ((jsSlice (server.history.drop (i + 1)) (-(parseLimit (some 20)))).map
            Msg.id).Nodup :=
      List.Nodup.sublist (hsl.map Msg.id) hserver
    have hpoll : pollStep localMsgs server
        = (if (historyGet server (some 20) none (some last.id)).length > 0
            then localMsgs ++ historyGet server (some 20) none (some last.id)
            else localMsgs) := by
      unfold pollStep
      rw [hlast]
    rw [hpoll, hresp]
    split
    · rw [List.map_append]
      apply List.nodup_append.mpr
      refine ⟨hlocal, hrespNodup, ?_⟩
      intro x hx hx2
      obtain ⟨m, hm, hid2⟩ := List.mem_map.mp hx2
      rw [← hid2] at hx
      exact hdisj m (hsub1 hm) hx
    · exact hlocal
  · intro cs m href hex
    have hany : cs.msgs.any (fun x => x.id == m.id) = true := by
      obtain ⟨x, hx, hid2⟩ := hex
      exact List.any_eq_true.mpr ⟨x, hx, by simpa using hid2⟩
    cases cs with
    | mk msgs pref =>
      simp only at href
      subst href
      simp [clientWsMessage, hany]

/-- A second server message strictly after the confirmed one. -/
def demoMsg3 : Msg := ⟨mkMsgId 3 demoRand, Role.user, hiChars, 3, MsgStatus.sent, none⟩

/-- Server store for the C2 witness: confirmed message plus one newer. -/
def demoServerB : ServerState := ⟨[demoMA, demoMsg3], []⟩

/-- C2 witness: a synced client polling past its confirmed tail picks up
only the new message and stays duplicate-free, and the WebSocket merge
drops an already-present event. -/
theorem pollMergeDedupAmendedWitness :
    ((pollStep [demoMA] demoServerB).map Msg.id).Nodup
    ∧ clientWsMessage ⟨[demoMA], none⟩ demoMA = ⟨[demoMA], none⟩ :=
  ⟨pollMergeDedupAmended.1 [demoMA] demoServerB demoMA 0 (by decide) (by decide)
      (by decide) (by decide) (by decide) (by decide),
   pollMergeDedupAmended.2 ⟨[demoMA], none⟩ demoMA rfl ⟨demoMA, by decide, rfl⟩⟩

/-! Claim C4. -/

theorem one_le_two_pow_q (n : Nat) : (1 : ℚ) ≤ 2 ^ n :=
  one_le_pow₀ (by norm_num)

/-- C4: the scheduled reconnect delay is `min(1000 * 2^n + jitter, 30000)`
for attempt n; for all jitter draws in [0, 1000) the delay sequence is
monotonically non-decreasing up to the 30-second cap; no reconnect is
scheduled once ten attempts have been made; and after the open handler
resets the counter the next scheduled delay is the base value plus the
jitter draw. -/
theorem reconnectBackoffSpec :
    (∀ (n : Nat) (j j2 : ℚ), 0 ≤ j → j < 1000 → 0 ≤ j2 →
        reconnectDelay n j ≤ reconnectDelay (n + 1) j2)
    ∧ (∀ (n : Nat) (j : ℚ), maxReconnectAttempts ≤ n →
        scheduleReconnect n j = none)
    ∧ (∀ (n : Nat) (j : ℚ), n < maxReconnectAttempts →
        scheduleReconnect n j
          = some (min (baseReconnectDelay * 2 ^ n + j) reconnectCap))
    ∧ (∀ (a : Nat) (j : ℚ), 0 ≤ j → j < 1000 →
        scheduleReconnect (onOpenReset a) j = some (baseReconnectDelay + j)) := by
  refine ⟨?_, ?_, ?_, ?_⟩
  · intro n j j2 hj0 hj1 hj2
    unfold reconnectDelay baseReconnectDelay reconnectCap
    apply le_min
    · have h2n := one_le_two_pow_q n
      have hstep : (1000 : ℚ) * 2 ^ n + j ≤ 1000 * 2 ^ (n + 1) + j2 := by
        rw [pow_succ]
        nlinarith
      exact le_trans (min_le_left _ _) hstep
    · exact min_le_right _ _
  · intro n j h
    unfold scheduleReconnect
    rw [if_pos h]
  · intro n j h
    unfold scheduleReconnect
    rw [if_neg (by omega)]
    rfl
  · intro a j hj0 hj1
    unfold scheduleReconnect onOpenReset maxReconnectAttempts
    rw [if_neg (by omega)]
    unfold reconnectDelay baseReconnectDelay reconnectCap
    have hmin : min ((1000 : ℚ) * 2 ^ (0 : Nat) + j) 30000 = 1000 + j := by
      rw [pow_zero, mul_one]
      exact min_eq_left (by linarith)
    rw [hmin]

/-- C4 witness: concrete jitter draws inside the bound. -/
theorem reconnectBackoffSpecWitness :
    ((0 : ℚ) ≤ 500 ∧ (500 : ℚ) < 1000 ∧ (0 : ℚ) ≤ 250)
    ∧ reconnectDelay 3 500 ≤ reconnectDelay 4 250
    ∧ scheduleReconnect 10 7 = none
    ∧ scheduleReconnect 2 7
        = some (min (baseReconnectDelay * 2 ^ 2 + 7) reconnectCap)
    ∧ scheduleReconnect (onOpenReset 9) 500 = some (baseReconnectDelay + 500) :=
  ⟨⟨by norm_num, by norm_num, by norm_num⟩,
   reconnectBackoffSpec.1 3 500 250 (by norm_num) (by norm_num) (by norm_num),
   reconnectBackoffSpec.2.1 10 7 le_rfl,
   reconnectBackoffSpec.2.2.1 2 7 (by decide),
   reconnectBackoffSpec.2.2.2 9 500 (by norm_num) (by norm_num)⟩

/-! Claim C7. -/

/-- C7: both broadcast operations serialize the event exactly once per
call; every open session (other than the origin for broadcastToOthers)
whose own send does not fail receives exactly the serialized bytes and
stays in the live-session set; and a session is removed by the broadcast
precisely when it was open and its send failed — a failure on one
session never suppresses delivery to another. -/
theorem broadcastIsolationSpec :
    ∀ (cs : List Sess) (ev : XEvent) (fails : Nat → Bool) (origin : Nat)
      (s : Sess),
      (broadcastToAll cs ev fails).serializations = 1
      ∧ (broadcastToOthers origin cs ev fails).serializations = 1
      ∧ (s ∈ cs → s.ready = true → fails s.sid = false →
          (s.sid, (serializeEvent ev 0).1)
              ∈ (broadcastToAll cs ev fails).delivered
          ∧ s ∈ (broadcastToAll cs ev fails).clients)
      ∧ (s ∈ cs → s.ready = true → fails s.sid = false → s.sid ≠ origin →
          (s.sid, (serializeEvent ev 0).1)
              ∈ (broadcastToOthers origin cs ev fails).delivered
          ∧ s ∈ (broadcastToOthers origin cs ev fails).clients)
      ∧ (s ∈ (broadcastToAll cs ev fails).clients
          ↔ s ∈ cs ∧ ¬(s.ready = true ∧ fails s.sid = true)) := by
  intro cs ev fails origin s
  refine ⟨rfl, rfl, ?_, ?_, ?_⟩
  · intro hmem hready hfail
    constructor
    · apply List.mem_map.mpr
      refine ⟨s, ?_, rfl⟩
      apply List.mem_filter.mpr
      refine ⟨List.mem_filter.mpr ⟨hmem, hready⟩, ?_⟩
      simp [hfail]
    · apply List.mem_filter.mpr
      refine ⟨hmem, ?_⟩
      simp [hready, hfail]
  · intro hmem hready hfail hor
    constructor
    · apply List.mem_map.mpr
      refine ⟨s, ?_, rfl⟩
      apply List.mem_filter.mpr
      refine ⟨List.mem_filter.mpr ⟨hmem, ?_⟩, ?_⟩
      · simp [hready, hor]
      · simp [hfail]
    · apply List.mem_filter.mpr
      refine ⟨hmem, ?_⟩
      simp [hfail]
  · constructor
    · intro h
      have h2 := List.mem_filter.mp h
      refine ⟨h2.1, ?_⟩
      intro hcon
      rw [hcon.1, hcon.2] at h2
      simp at h2
    · intro h2
      apply List.mem_filter.mpr
      refine ⟨h2.1, ?_⟩
      have := h2.2
      cases hr : s.ready <;> cases hf : fails s.sid <;> simp_all

/-- A demo session set: two open sessions and one closed one. -/
def demoSessions : List Sess := [⟨1, true⟩, ⟨2, true⟩, ⟨3, false⟩]

/-- Failure oracle for the demo: the send to session 2 fails. -/
def demoFails : Nat → Bool := fun n => n == 2

/-- A demo broadcast event. -/
def demoEvent : XEvent := ⟨"chat:response".data, hiChars⟩

/-- C7 witness: with session 2 failing, session 1 still receives the
once-serialized event and stays registered. -/
theorem broadcastIsolationSpecWitness :
    ((⟨1, true⟩ : Sess) ∈ demoSessions
      ∧ (Sess.mk 1 true).ready = true
      ∧ demoFails 1 = false)
    ∧ ((1, (serializeEvent demoEvent 0).1)
          ∈ (broadcastToAll demoSessions demoEvent demoFails).delivered
      ∧ (⟨1, true⟩ : Sess) ∈ (broadcastToAll demoSessions demoEvent demoFails).clients) :=
  ⟨⟨by decide, rfl, rfl⟩,
   (broadcastIsolationSpec demoSessions demoEvent demoFails 3 ⟨1, true⟩).2.2.1
     (by decide) rfl rfl⟩

end Skipper
